import Mathlib

/-
Verification of the persisted package (hwh33/persisted): a shallow embedding
of src/llist.go, src/log.go and the in-memory linked list, together with
theorems settling the specification claims about them.

Modelling conventions:
- Go interface values that flow through the list and the log are modelled by
  the inductive type Val; the Go nil interface is Val.vnil.
- Fallible Go functions returning (T, error) are modelled Go-style as
  products with an Option GoErr component, so that state mutated before an
  error is preserved, exactly as in Go.
- The backing file is modelled by FileState: the content seen through the
  open handle held by the log, the content reachable at the file path, and
  whether the two are still the same inode. os.Rename during compaction
  replaces the path content but never the handle content.
- File sizes are a computable byte-count abstraction of the encoded records;
  every claim about sizes quantifies over contents, so only the control flow
  comparing sizes to thresholds matters.
-/

/-- Go error values, carried as their message strings. -/
abbrev GoErr := String

/-- Go interface values stored in the list and passed as operation
parameters. `vnil` is the nil interface value; `vslice` is a
[]interface\x7b\x7d value (needed because replay passes a parameter slice as a
single variadic argument). -/
inductive Val where
  | vnil : Val
  | vint : Int → Val
  | vstr : String → Val
  | vslice : List Val → Val

/-- The Go comparison `v == nil` on an interface value. -/
def Val.isNil : Val → Bool
  | .vnil => true
  | _ => false

mutual

/-- A small model of the JSON text json.Marshal produces for a Val; only
used as an injective encoding whose byte length feeds the size model. -/
def jsonEncode : Val → String
  | .vnil => "null"
  | .vint n => toString n
  | .vstr s => "\x22" ++ s ++ "\x22"
  | .vslice vs => "[" ++ jsonEncodeSeq vs ++ "]"

def jsonEncodeSeq : List Val → String
  | [] => ""
  | [v] => jsonEncode v
  | v :: w :: rest => jsonEncode v ++ "," ++ jsonEncodeSeq (w :: rest)

end

/-- Type of marshalFunc from src/log.go: func(interface\x7b\x7d) ([]byte, error).
Byte slices are modelled as the strings they decode to. -/
abbrev MarshalFn := Val → Except GoErr String

/-- Type of unmarshalFunc from src/log.go: func([]byte, interface\x7b\x7d) error.
The second argument is the target the decoded value should be written
through; the result reports only the error, matching the Go signature. -/
abbrev UnmarshalFn := String → Val → Option GoErr

/-- json.Marshal on the values of this model; total, since every Val is a
JSON-encodable Go value. -/
def jsonMarshal : MarshalFn := fun v => Except.ok (jsonEncode v)

/-- Error returned by encoding/json when Unmarshal is handed a nil target. -/
def invalidUnmarshalMsg : GoErr := "json: Unmarshal(nil)"

/-- json.Unmarshal on the values of this model. Per the encoding/json
documentation, Unmarshal returns an InvalidUnmarshalError when the target
is nil or not a pointer. No Val in this model is a Go pointer, and the one
call site in src/log.go passes the nil interface value, so every call
fails without writing anything. -/
def jsonUnmarshal : UnmarshalFn := fun _data target =>
  match target with
  | .vnil => some invalidUnmarshalMsg
  | _ => some "json: Unmarshal(non-pointer)"

/-- stateChange from src/log.go: one operation recorded in the log. -/
structure stateChange where
  key : String
  parameters : List Val

/-- marshalledStateChange from src/log.go: the JSON envelope of a
stateChange, with each parameter independently marshalled. -/
structure marshalledStateChange where
  Key : String
  MarshalledParameters : List String

/-- Modelled from the spec: the `newOperation` constructor is called from
src/llist.go but its definition is not under src/. Per spec section 2, an
Operation is the immutable value of a key together with its ordered
parameters; the Go variadic call `newOperation(key, p1, p2, ...)` collects
the parameters in order. -/
def newOperation (key : String) (parameters : List Val) : stateChange :=
  { key := key, parameters := parameters }

/-- The parameter loop of stateChange.marshal (src/log.go): marshal each
parameter in order, returning the first error. -/
def marshalParams (marshal : MarshalFn) : List Val → Except GoErr (List String)
  | [] => Except.ok []
  | p :: rest =>
    match marshal p with
    | Except.error e => Except.error e
    | Except.ok b =>
      match marshalParams marshal rest with
      | Except.error e => Except.error e
      | Except.ok bs => Except.ok (b :: bs)

/-- stateChange.marshal from src/log.go. -/
def stateChange.marshal (sc : stateChange) (marshal : MarshalFn) :
    Except GoErr marshalledStateChange :=
  match marshalParams marshal sc.parameters with
  | Except.error e => Except.error e
  | Except.ok ps => Except.ok { Key := sc.key, MarshalledParameters := ps }

/-- The parameter loop of marshalledStateChange.unmarshal (src/log.go).
The Go code passes `parameters[index]` - always the nil interface value,
since `make([]interface\x7b\x7d, n)` fills the slice with nils and nothing ever
writes into it - by value as the unmarshal target, so the target of every
call is Val.vnil. -/
def unmarshalParamsCheck (unmarshal : UnmarshalFn) : List String → Option GoErr
  | [] => none
  | mp :: rest =>
    match unmarshal mp Val.vnil with
    | some e => some e
    | none => unmarshalParamsCheck unmarshal rest

/-- marshalledStateChange.unmarshal from src/log.go. On success the
reconstructed stateChange carries the parameters slice exactly as `make`
initialized it: all nil interface values, because the unmarshal target was
passed by value and no decoded value was ever stored back. -/
def marshalledStateChange.unmarshal (m : marshalledStateChange)
    (unmarshal : UnmarshalFn) : Except GoErr stateChange :=
  match unmarshalParamsCheck unmarshal m.MarshalledParameters with
  | some e => Except.error e
  | none =>
    Except.ok { key := m.Key,
                parameters := List.replicate m.MarshalledParameters.length Val.vnil }

/-- One item in the byte stream of the log file, as seen by a JSON stream
decoder: either a fully encoded record, or trailing bytes that do not
decode (a truncated or corrupt record of the given byte length). -/
inductive LogItem where
  | record (m : marshalledStateChange) : LogItem
  | garbage (nBytes : Nat) : LogItem

/-- Computable byte-count abstraction of the encoded size of one record
(JSON envelope of key and base64 parameters plus newline). The exact
constants are immaterial: every theorem comparing sizes with thresholds
quantifies over contents. -/
def mrecSize (m : marshalledStateChange) : Int :=
  (m.Key.length : Int) + ((m.MarshalledParameters.map
    (fun b => (b.length : Int) + 8)).sum) + 34

def itemSize : LogItem → Int
  | .record m => mrecSize m
  | .garbage n => (n : Int)

/-- Size in bytes of a file content, as reported by Stat. -/
def fileSize (items : List LogItem) : Int :=
  (items.map itemSize).sum

/-- The backing file as the log sees it. `handleContent` is the inode the
open handle (from os.Open in newLog) reads and stats; `pathContent` is
whatever a fresh open of the file path would see. They start out as the
same inode (`aliased = true`); os.Rename in compact points the path at a
new inode and leaves the handle on the old one. -/
structure FileState where
  handleContent : List LogItem
  pathContent : List LogItem
  aliased : Bool

/-- A successful write through the handle appends to the handle inode and,
while handle and path still name the same inode, to the path content too. -/
def writeRec (fs : FileState) (mc : marshalledStateChange) : FileState :=
  { handleContent := fs.handleContent ++ [LogItem.record mc],
    pathContent := if fs.aliased then fs.pathContent ++ [LogItem.record mc]
                   else fs.pathContent,
    aliased := fs.aliased }

/-- os.Rename(tempFile, path): the path now names the freshly written
records; the open handle keeps the old inode. -/
def renameOver (fs : FileState) (mrecs : List marshalledStateChange) : FileState :=
  { handleContent := fs.handleContent,
    pathContent := mrecs.map LogItem.record,
    aliased := false }

/-- Initialize the compaction threshold to 10 KB (src/log.go). -/
def initialCompactionThreshold : Int := 10 * 1024

/-- The log type from src/log.go. `readOnly` records the open mode of the
file handle: newLog opens with os.Open, which is O_RDONLY. -/
structure GoLog where
  fileName : String
  readOnly : Bool
  getCompactedChanges : Unit → List stateChange
  compactThreshold : Int
  marshaler : MarshalFn
  unmarshaler : UnmarshalFn

/-- Whether a file name contains a path separator. ioutil.TempFile fails
when its name pattern contains one (for any path not in the current
directory, `TempCompactionFile-` ++ name does). -/
def hasPathSep (s : String) : Bool := s.data.contains '/'

def badFDMsg : GoErr := "bad file descriptor"

def openErrMsg : GoErr := "no such file or directory"

/-- newLog from src/log.go. `openOk` stands for whether os.Open(filepath)
succeeds; on success the handle is read-only. -/
def newLog (filepath : String) (openOk : Bool)
    (compactedChangesFn : Unit → List stateChange)
    (marshalFn : MarshalFn) (unmarshalFn : UnmarshalFn) :
    Except GoErr GoLog :=
  if openOk then
    Except.ok { fileName := filepath,
                readOnly := true,
                getCompactedChanges := compactedChangesFn,
                compactThreshold := initialCompactionThreshold,
                marshaler := marshalFn,
                unmarshaler := unmarshalFn }
  else Except.error openErrMsg

/-- The marshal-and-encode loop of log.compact (src/log.go): marshal each
compacted change and write it to the temporary file, stopping at the first
marshalling error with the wrapped message. Encoding to the fresh,
writable temporary file itself does not fail in this model. -/
def encodeChanges (marshal : MarshalFn) :
    List stateChange → Except GoErr (List marshalledStateChange)
  | [] => Except.ok []
  | c :: rest =>
    match c.marshal marshal with
    | Except.error e =>
        Except.error ("Marshalling error during compaction: " ++ e)
    | Except.ok mc =>
      match encodeChanges marshal rest with
      | Except.error e => Except.error e
      | Except.ok mcs => Except.ok (mc :: mcs)

/-- log.compact from src/log.go. Note the source bug kept faithfully: when
ioutil.TempFile fails (its pattern `TempCompactionFile-` ++ file name
contains a path separator), the code returns nil - the error is dropped
and the file is left as it was. On success the temporary file is renamed
over the path. -/
def GoLog.compact (l : GoLog) (fs : FileState) : Option GoErr × FileState :=
  if hasPathSep l.fileName then
    (none, fs)
  else
    match encodeChanges l.marshaler (l.getCompactedChanges ()) with
    | Except.error e => (some e, fs)
    | Except.ok mrecs => (none, renameOver fs mrecs)

/-- log.compactIfNecessary from src/log.go: stat the handle; compact when
strictly over the threshold, propagating a compaction error; stat again,
and double the threshold when the observed size is still strictly over. -/
def GoLog.compactIfNecessary (l : GoLog) (fs : FileState) :
    Option GoErr × GoLog × FileState :=
  match (if fileSize fs.handleContent > l.compactThreshold
         then l.compact fs else (none, fs)) with
  | (some e, fs') => (some e, l, fs')
  | (none, fs') =>
    if fileSize fs'.handleContent > l.compactThreshold then
      (none, { l with compactThreshold := l.compactThreshold * 2 }, fs')
    else (none, l, fs')

/-- log.add from src/log.go: marshal the change, encode it onto the file
handle, then compact if necessary. The encoder write fails with EBADF on
a handle opened read-only. -/
def GoLog.add (l : GoLog) (change : stateChange) (fs : FileState) :
    Option GoErr × GoLog × FileState :=
  match change.marshal l.marshaler with
  | Except.error e => (some e, l, fs)
  | Except.ok mc =>
    if l.readOnly then (some badFDMsg, l, fs)
    else l.compactIfNecessary (writeRec fs mc)

/-- Error text of a JSON stream decoder hitting truncated trailing bytes. -/
def decodeTruncatedMsg : GoErr := "unexpected EOF"

/-- Type of the values of the map passed to log.replay: variadic Go
closures that mutate the inner list of the owning LinkedList and report an
error. `inputs` is the variadic argument slice; the inner list is threaded
explicitly because the Go closures capture it mutably. -/
abbrev OpFun := List Val → List Val → Option GoErr × List Val

/-- The decode-and-apply loop of log.replay (src/log.go), reading the
items of the handle content in order. Note, faithfully to the source,
that `stateChangeFunction(change.parameters)` passes the whole decoded
parameter slice as a single variadic argument, so the closure always
receives exactly one input holding the slice. -/
def replayLoop (unmarshaler : UnmarshalFn) (opsMap : String → Option OpFun) :
    List LogItem → List Val → Option GoErr × List Val
  | [], inner => (none, inner)
  | LogItem.garbage _ :: _, inner => (some decodeTruncatedMsg, inner)
  | LogItem.record m :: rest, inner =>
    match m.unmarshal unmarshaler with
    | Except.error e => (some e, inner)
    | Except.ok change =>
      match opsMap change.key with
      | none =>
        (some ("Recorded key <" ++ change.key ++ "> not found in input map"),
         inner)
      | some f =>
        match f [Val.vslice change.parameters] inner with
        | (some e, inner') =>
          (some ("Error applying state change: " ++ e), inner')
        | (none, inner') => replayLoop unmarshaler opsMap rest inner'

/-- log.replay from src/log.go: run the loop over every stored record,
then compact unconditionally. -/
def GoLog.replay (l : GoLog) (fs : FileState)
    (stateChangeFunctions : String → Option OpFun) (inner : List Val) :
    Option GoErr × List Val × FileState :=
  match replayLoop l.unmarshaler stateChangeFunctions fs.handleContent inner with
  | (some e, inner') => (some e, inner', fs)
  | (none, inner') =>
    match l.compact fs with
    | (e, fs') => (e, inner', fs')

/-- inMemLinkedList from the in-memory list source file: the doubly linked
node chain is represented by its front-to-back sequence of stored values
(head is the first element, tail the last, length the list length). -/
structure inMemLinkedList where
  elems : List Val

/-- inMemLinkedList.append: insert at the tail. -/
def inMemLinkedList.append (ll : inMemLinkedList) (newElement : Val) :
    inMemLinkedList :=
  { elems := ll.elems ++ [newElement] }

/-- inMemLinkedList.push: insert at the head. -/
def inMemLinkedList.push (ll : inMemLinkedList) (newElement : Val) :
    inMemLinkedList :=
  { elems := newElement :: ll.elems }

/-- inMemLinkedList.pop: when the length is 0, return the nil interface
value and leave the list alone; otherwise remove and return the tail
value. -/
def inMemLinkedList.pop (ll : inMemLinkedList) : Val × inMemLinkedList :=
  if ll.elems.length = 0 then (Val.vnil, ll)
  else (ll.elems.getLastD Val.vnil, { elems := ll.elems.dropLast })

/-- inMemLinkedList.length. -/
def inMemLinkedList.length (ll : inMemLinkedList) : Nat := ll.elems.length

/-- The walk of inMemLinkedList.get: step `position` times along the next
pointers from the head and read the data of the node reached. The bounds
are checked by the caller before the walk starts. -/
def walkGet : List Val → Nat → Val
  | [], _ => Val.vnil
  | v :: _, 0 => v
  | _ :: rest, n + 1 => walkGet rest n

/-- inMemLinkedList.get: nil for positions outside [0, length), otherwise
the value at the 0-based position, found by walking from the head. The
position is an Int because Go int positions can be negative. -/
def inMemLinkedList.get (ll : inMemLinkedList) (position : Int) : Val :=
  if position < 0 ∨ (ll.length : Int) - 1 < position then Val.vnil
  else walkGet ll.elems position.toNat

/-- Operation keys recorded in the log file (src/llist.go). -/
def _append : String := "__append__"

def _push : String := "__push__"

def _pop : String := "__pop__"

/-- LinkedList from src/llist.go: an in-memory list plus its log. -/
structure LinkedList where
  inner : inMemLinkedList
  log : GoLog

/-- The operations of the closure returned by LinkedList.getCallback
(src/llist.go): iterate the inner list front to back and emit one append
operation per element. -/
def getCallbackOps (inner : inMemLinkedList) : List stateChange :=
  inner.elems.map (fun v => newOperation _append [v])

/-- An insert into the Go map built by getOperationsMap; a later insert
for the same key overwrites the earlier one. -/
def opsInsert (m : String → Option OpFun) (k : String) (f : OpFun) :
    String → Option OpFun :=
  fun key => if key = k then some f else m key

/-- LinkedList.getOperationsMap from src/llist.go, kept faithful to the
source: the map entry for `_append` is assigned twice - the second
assignment, whose body calls push, overwrites the first, append-calling
one - and no entry is ever created for `_push`. -/
def getOperationsMap : String → Option OpFun :=
  let m0 : String → Option OpFun := fun _ => none
  let m1 := opsInsert m0 _append (fun inputs inner =>
    match inputs with
    | [v] => (none, ((inMemLinkedList.mk inner).append v).elems)
    | _ => (some ("Expected 1 parameter. Received " ++
                  toString inputs.length ++ "."), inner))
  let m2 := opsInsert m1 _pop (fun inputs inner =>
    match inputs with
    | [] => (none, ((inMemLinkedList.mk inner).pop).2.elems)
    | _ => (some ("Expected 0 parameter. Received " ++
                  toString inputs.length ++ "."), inner))
  let m3 := opsInsert m2 _append (fun inputs inner =>
    match inputs with
    | [v] => (none, ((inMemLinkedList.mk inner).push v).elems)
    | _ => (some ("Expected 1 parameter. Received " ++
                  toString inputs.length ++ "."), inner))
  m3

/-- Fault-aware result of a Go function: a normal value, a returned error,
or a runtime fault (Go panic). -/
inductive GoResult (α : Type) where
  | ok (a : α) : GoResult α
  | err (e : GoErr) : GoResult α
  | fault (msg : String) : GoResult α

def nilDerefMsg : String :=
  "runtime error: invalid memory address or nil pointer dereference"

/-- NewLinkedList from src/llist.go. The named return value
`linkedList *LinkedList` starts as the nil pointer and is never allocated;
the very first statement, `linkedList.log, err = newLog(...)`, stores
through that nil pointer, so every call faults there. The code after the
store, kept in the unreachable branch below, can never run. -/
def NewLinkedList (filepath : String) (openOk : Bool) (fs : FileState) :
    GoResult (LinkedList × FileState) :=
  let linkedList : Option LinkedList := none
  match linkedList with
  | none => GoResult.fault nilDerefMsg
  | some ll0 =>
    match newLog filepath openOk (fun _ => getCallbackOps ll0.inner)
        jsonMarshal jsonUnmarshal with
    | Except.error e => GoResult.err e
    | Except.ok lg =>
      match lg.replay fs getOperationsMap [] with
      | (some e, _, _) => GoResult.err e
      | (none, inner, fs') =>
        GoResult.ok ({ inner := { elems := inner }, log := lg }, fs')

/-- LinkedList.Append from src/llist.go: mutate the inner list, then log
an append operation carrying the new element. -/
def LinkedList.Append (ll : LinkedList) (newElement : Val) (fs : FileState) :
    Option GoErr × LinkedList × FileState :=
  let inner' := ll.inner.append newElement
  match ll.log.add (newOperation _append [newElement]) fs with
  | (e, lg', fs') => (e, { inner := inner', log := lg' }, fs')

/-- LinkedList.Push from src/llist.go: mutate the inner list, then log a
push operation carrying the new element. -/
def LinkedList.Push (ll : LinkedList) (newElement : Val) (fs : FileState) :
    Option GoErr × LinkedList × FileState :=
  let inner' := ll.inner.push newElement
  match ll.log.add (newOperation _push [newElement]) fs with
  | (e, lg', fs') => (e, { inner := inner', log := lg' }, fs')

/-- LinkedList.Pop from src/llist.go: pop the inner list first; when the
popped value is the nil interface (in particular whenever the list was
empty) return nil with no error and without touching the log; otherwise
log a parameterless pop operation. -/
def LinkedList.Pop (ll : LinkedList) (fs : FileState) :
    Val × Option GoErr × LinkedList × FileState :=
  let (popped, inner') := ll.inner.pop
  if popped.isNil then (Val.vnil, none, { ll with inner := inner' }, fs)
  else
    match ll.log.add (newOperation _pop []) fs with
    | (e, lg', fs') => (popped, e, { inner := inner', log := lg' }, fs')

/-- LinkedList.Get from src/llist.go: delegate to the inner list. The
receiver is taken by value and returned state-free because neither Get
nor inMemLinkedList.get contains any assignment: the call cannot change
the length or the stored sequence. -/
def LinkedList.Get (ll : LinkedList) (position : Int) : Val :=
  ll.inner.get position

/-- LinkedList.Length from src/llist.go. -/
def LinkedList.Length (ll : LinkedList) : Nat := ll.inner.length

/- Concrete fixtures used by the theorems below. -/

/-- The log value newLog builds for a plain file name with the json codec
and an empty compaction source. -/
def logJson : GoLog :=
  { fileName := "llist.log",
    readOnly := true,
    getCompactedChanges := fun _ => [],
    compactThreshold := initialCompactionThreshold,
    marshaler := jsonMarshal,
    unmarshaler := jsonUnmarshal }

/-- An empty backing file. -/
def fs0 : FileState := { handleContent := [], pathContent := [], aliased := true }

/-- A backing file holding the two records that two Append calls would
store: two well-formed append records with one marshalled parameter each. -/
def twoAppendRecs : List LogItem :=
  [LogItem.record { Key := "__append__", MarshalledParameters := ["0"] },
   LogItem.record { Key := "__append__", MarshalledParameters := ["1"] }]

def fsTwoAppends : FileState :=
  { handleContent := twoAppendRecs, pathContent := twoAppendRecs, aliased := true }

/-- Claim C2: in NewLinkedList the named return value `linkedList` is
still a nil pointer when the field `linkedList.log` is assigned - it is
never allocated before that assignment - so every call to NewLinkedList
faults there and construction never returns a usable list. -/
theorem NewLinkedList_always_faults (filepath : String) (openOk : Bool)
    (fs : FileState) :
    NewLinkedList filepath openOk fs = GoResult.fault nilDerefMsg := rfl

/-- Claim C1: the round-trip property fails on the code. Reconstructing a
LinkedList from the backing file of an earlier list is impossible: the
constructor faults on every call (nil pointer store), so it cannot
reproduce length or order for any Append/Push/Pop history; moreover even
the log layer alone, replayed as in log_test.go over the records two
Append calls would have written, fails at the very first record, because
replay hands json.Unmarshal the nil interface value as its target. -/
theorem persistence_roundtrip_broken :
    NewLinkedList "llist.log" true fsTwoAppends = GoResult.fault nilDerefMsg ∧
    logJson.replay fsTwoAppends getOperationsMap [] =
      (some invalidUnmarshalMsg, [], fsTwoAppends) :=
  ⟨rfl, rfl⟩

/-- Claim C4: the apply table built by getOperationsMap does not match the
spec. The second assignment to the append key overwrites the first with a
body that calls push, so the append key maps to a head insert (applying it
to value 5 over list [9] yields [5, 9], not the claimed tail append
[9, 5]), and no entry at all exists for the push key. -/
theorem operations_map_push_missing :
    getOperationsMap _push = none ∧
    (getOperationsMap _append).map (fun f => f [Val.vint 5] [Val.vint 9]) =
      some (none, [Val.vint 5, Val.vint 9]) :=
  ⟨rfl, rfl⟩

/-- A backing file holding one well-formed parameterless pop record
followed by truncated trailing bytes. -/
def popThenTruncated : List LogItem :=
  [LogItem.record { Key := "__pop__", MarshalledParameters := [] },
   LogItem.garbage 7]

def fsPopTruncated : FileState :=
  { handleContent := popThenTruncated, pathContent := popThenTruncated,
    aliased := true }

/-- Claim C5: on a log holding one well-formed record followed by a
truncated record, construction does not return an error value - it faults
before replay ever runs, because of the nil pointer store in
NewLinkedList. Even replay itself, run directly as in log_test.go, fails
on the first, well-formed record: the decoded parameter slice is passed
as one variadic argument, so the pop entry of the apply table sees arity
1 and rejects it, and the truncated record is never reached. -/
theorem truncated_log_construction_faults :
    NewLinkedList "llist.log" true fsPopTruncated = GoResult.fault nilDerefMsg ∧
    logJson.replay fsPopTruncated getOperationsMap [] =
      (some "Error applying state change: Expected 0 parameter. Received 1.",
       [], fsPopTruncated) :=
  ⟨rfl, rfl⟩

/-- A log anchored at an absolute path, with a nonempty compaction source,
over a file holding some existing bytes. -/
def logSlash : GoLog :=
  { fileName := "/tmp/llist.log",
    readOnly := true,
    getCompactedChanges := fun _ => [newOperation _append [Val.vint 1]],
    compactThreshold := initialCompactionThreshold,
    marshaler := jsonMarshal,
    unmarshaler := jsonUnmarshal }

def fsEleven : FileState :=
  { handleContent := [LogItem.garbage 11], pathContent := [LogItem.garbage 11],
    aliased := true }

/-- Claim C6: compact does not report every internal failure. When
ioutil.TempFile fails - here because the pattern, the prefix
`TempCompactionFile-` glued onto the path `/tmp/llist.log`, contains a
path separator - the code returns nil instead of the error: the call
reports success, nothing was compacted, and the caller cannot tell. The
old file is indeed left untouched, but the failure is silently swallowed
rather than surfaced. -/
theorem compact_swallows_tempfile_error :
    hasPathSep "/tmp/llist.log" = true ∧
    logSlash.compact fsEleven = (none, fsEleven) :=
  ⟨rfl, rfl⟩

/-- Claim C8: Pop on an empty LinkedList returns the nil sentinel with no
error and does not touch the log: the inner pop returns nil without
mutating, the nil check short-circuits before log.add is ever called, and
the backing file state - both its contents and hence its size - is
returned exactly as it was. -/
theorem Pop_empty_no_log_write (ll : LinkedList) (fs : FileState)
    (h : ll.inner.elems = []) :
    ll.Pop fs = (Val.vnil, none, ll, fs) := by
  obtain ⟨⟨elems⟩, lg⟩ := ll
  dsimp only at h
  subst h
  rfl

/-- An empty LinkedList over an empty backing file. -/
def llEmpty : LinkedList := { inner := { elems := [] }, log := logJson }

theorem Pop_empty_no_log_write_witness :
    llEmpty.Pop fs0 = (Val.vnil, none, llEmpty, fs0) :=
  Pop_empty_no_log_write llEmpty fs0 rfl

/-- Claim C10: marshalledStateChange.unmarshal hands the unmarshal
function the nil interface value parameters[index] by value. With the
json codec actually installed by the callers, every record with at least
one parameter therefore fails to decode with the InvalidUnmarshalError of
encoding/json; and even under an arbitrary unmarshal function that
reports success, the reconstructed stateChange still carries only nil
parameter values - no decoded value is ever placed into it. -/
theorem unmarshal_nil_target_fails (m : marshalledStateChange)
    (h : m.MarshalledParameters ≠ []) :
    m.unmarshal jsonUnmarshal = Except.error invalidUnmarshalMsg ∧
    ∀ (u : UnmarshalFn) (sc : stateChange), m.unmarshal u = Except.ok sc →
      sc.parameters = List.replicate m.MarshalledParameters.length Val.vnil := by
  constructor
  · obtain ⟨k, ps⟩ := m
    cases ps with
    | nil => exact absurd rfl h
    | cons p rest => rfl
  · intro u sc hsc
    unfold marshalledStateChange.unmarshal at hsc
    cases hcheck : unmarshalParamsCheck u m.MarshalledParameters with
    | some e => rw [hcheck] at hsc; exact absurd hsc (by simp)
    | none =>
      rw [hcheck] at hsc
      cases hsc
      rfl

/-- A record with one marshalled parameter. -/
def mOneParam : marshalledStateChange :=
  { Key := "__append__", MarshalledParameters := ["7"] }

theorem unmarshal_nil_target_fails_witness :
    mOneParam.unmarshal jsonUnmarshal = Except.error invalidUnmarshalMsg :=
  (unmarshal_nil_target_fails mOneParam (by decide)).1

/-- Claim C3: every log returned by newLog holds a handle opened with
read-only os.Open, so add always fails and never appends a record: the
file state comes back unchanged with a non-nil error, and whenever the
marshalling step succeeds the reported error is precisely the write
error from encoding onto the read-only handle. -/
theorem newLog_readonly_add_fails (fp : String)
    (fn : Unit → List stateChange) (mf : MarshalFn) (uf : UnmarshalFn)
    (l : GoLog) (change : stateChange) (fs : FileState)
    (hopen : newLog fp true fn mf uf = Except.ok l) :
    (∃ e, l.add change fs = (some e, l, fs)) ∧
    (∀ mc, change.marshal l.marshaler = Except.ok mc →
        l.add change fs = (some badFDMsg, l, fs)) := by
  have hl : { fileName := fp, readOnly := true, getCompactedChanges := fn,
              compactThreshold := initialCompactionThreshold,
              marshaler := mf, unmarshaler := uf : GoLog } = l := by
    simpa [newLog] using hopen
  subst hl
  constructor
  · cases hm : change.marshal mf with
    | error e => exact ⟨e, by unfold GoLog.add; rw [hm]⟩
    | ok mc => exact ⟨badFDMsg, by unfold GoLog.add; rw [hm]; rfl⟩
  · intro mc hmc
    unfold GoLog.add
    rw [hmc]
    rfl

/-- A parameterless pop change, whose marshalling trivially succeeds. -/
def popChange : stateChange := newOperation _pop []

theorem newLog_readonly_add_fails_witness :
    (∃ e, logJson.add popChange fs0 = (some e, logJson, fs0)) ∧
    (∀ mc, popChange.marshal logJson.marshaler = Except.ok mc →
        logJson.add popChange fs0 = (some badFDMsg, logJson, fs0)) :=
  newLog_readonly_add_fails "llist.log" (fun _ => []) jsonMarshal jsonUnmarshal
    logJson popChange fs0 rfl

/-- The walk of inMemLinkedList.get reads exactly the element at the given
0-based position of the value sequence. -/
theorem walkGet_eq_getD (l : List Val) (n : Nat) :
    walkGet l n = l.getD n Val.vnil := by
  induction l generalizing n with
  | nil => cases n <;> rfl
  | cons v t ih =>
    cases n with
    | zero => rfl
    | succ k => simpa [walkGet] using ih k

/-- Claim C9: Get returns the value stored at 0-based position i whenever
0 ≤ i < length, returns the nil not-found sentinel whenever i < 0 or
i ≥ length, and cannot mutate the list: Get and inMemLinkedList.get
contain no assignment, which the embedding reflects by returning only the
value, so length and stored sequence are the same before and after. -/
theorem Get_bounds_spec (ll : LinkedList) (i : Int) :
    (0 ≤ i → i < (ll.inner.elems.length : Int) →
      ll.Get i = ll.inner.elems.getD i.toNat Val.vnil) ∧
    ((i < 0 ∨ (ll.inner.elems.length : Int) ≤ i) → ll.Get i = Val.vnil) := by
  constructor
  · intro h0 hlt
    unfold LinkedList.Get inMemLinkedList.get
    rw [if_neg, walkGet_eq_getD]
    unfold inMemLinkedList.length
    omega
  · intro hout
    unfold LinkedList.Get inMemLinkedList.get
    rw [if_pos]
    unfold inMemLinkedList.length
    omega

/-- A three-element list over an empty backing file. -/
def llThree : LinkedList :=
  { inner := { elems := [Val.vint 0, Val.vint 1, Val.vint 2] }, log := logJson }

theorem Get_bounds_spec_witness :
    llThree.Get 1 = llThree.inner.elems.getD (1 : Int).toNat Val.vnil ∧
    llThree.Get 5 = Val.vnil :=
  ⟨(Get_bounds_spec llThree 1).1 (by decide) (by decide),
   (Get_bounds_spec llThree 5).2 (Or.inr (by decide))⟩

/-- Claim C7: compactIfNecessary compacts only when the size the handle
reports strictly exceeds the threshold; when the size observed after that
compaction still strictly exceeds the threshold it doubles the threshold
instead of compacting a second time; and when the size was within the
threshold it changes neither the file nor the threshold. -/
theorem compactIfNecessary_threshold_spec (l : GoLog) (fs : FileState) :
    (fileSize fs.handleContent ≤ l.compactThreshold →
      l.compactIfNecessary fs = (none, l, fs)) ∧
    (fileSize fs.handleContent > l.compactThreshold →
      ∀ fs2, l.compact fs = (none, fs2) →
        ((fileSize fs2.handleContent > l.compactThreshold →
            l.compactIfNecessary fs =
              (none, { l with compactThreshold := l.compactThreshold * 2 }, fs2)) ∧
         (fileSize fs2.handleContent ≤ l.compactThreshold →
            l.compactIfNecessary fs = (none, l, fs2)))) := by
  constructor
  · intro hle
    unfold GoLog.compactIfNecessary
    rw [if_neg (by omega)]
    show (if fileSize fs.handleContent > l.compactThreshold then _ else _) = _
    rw [if_neg (by omega)]
  · intro hgt fs2 hc
    constructor
    · intro h2
      unfold GoLog.compactIfNecessary
      rw [if_pos hgt, hc]
      show (if fileSize fs2.handleContent > l.compactThreshold then _ else _) = _
      rw [if_pos h2]
    · intro h2
      unfold GoLog.compactIfNecessary
      rw [if_pos hgt, hc]
      show (if fileSize fs2.handleContent > l.compactThreshold then _ else _) = _
      rw [if_neg (by omega)]

/-- A log over a plain (separator-free) file name with a threshold of one
byte and an empty compaction source. -/
def logTiny : GoLog :=
  { fileName := "llist.log",
    readOnly := true,
    getCompactedChanges := fun _ => [],
    compactThreshold := 1,
    marshaler := jsonMarshal,
    unmarshaler := jsonUnmarshal }

/-- A backing file of 50 bytes. -/
def fsFifty : FileState :=
  { handleContent := [LogItem.garbage 50], pathContent := [LogItem.garbage 50],
    aliased := true }

/-- fsFifty after one compaction: the path was renamed over with the empty
compacted sequence, while the stat of the still-open handle keeps
reporting the old 50-byte inode. -/
def fsFiftyCompacted : FileState :=
  { handleContent := [LogItem.garbage 50], pathContent := [], aliased := false }

theorem compactIfNecessary_threshold_spec_witness :
    logTiny.compactIfNecessary fs0 = (none, logTiny, fs0) ∧
    logTiny.compactIfNecessary fsFifty =
      (none, { logTiny with compactThreshold := logTiny.compactThreshold * 2 },
       fsFiftyCompacted) :=
  ⟨(compactIfNecessary_threshold_spec logTiny fs0).1 (by decide),
   ((compactIfNecessary_threshold_spec logTiny fsFifty).2 (by decide)
      fsFiftyCompacted rfl).1 (by decide)⟩
